import Mathlib

/-!
Shallow embedding of the Vacanalyzer ingestion pipeline
(src/functions/database.py and src/functions/data_import.py) and proofs
about it.  Pure functions of the source become Lean functions; the
database (four peewee tables backed by SQLite) becomes an explicit state
record of four row lists, with peewee's `get_or_create`, the conditional
`select ... first()` and row `save()` spelled out as list operations.
-/

/-! ## Tech classifier: `extract_tech` (src/functions/database.py, lines 34-71) -/

/-- Embeds the regex alternative `\(.*?\)` of the cleaning pattern: at an
opening parenthesis, the lazy `.*?` (which cannot cross a newline) runs to
the first closing parenthesis; the returned list is what remains after it.
`none` when no such close exists, in which case the alternative fails. -/
def skipParen : List Char → Option (List Char)
  | [] => none
  | c :: cs => if c = ')' then some cs else if c = '\n' then none else skipParen cs

theorem skipParen_length : ∀ cs r, skipParen cs = some r → r.length ≤ cs.length := by
  intro cs
  induction cs with
  | nil => intro r h; simp [skipParen] at h
  | cons c cs ih =>
    intro r h
    simp only [skipParen] at h
    split at h
    · cases h; simp
    · split at h
      · cases h
      · have := ih r h
        simp
        omega

/-- Embeds `re.sub(r"\(.*?\)|/.*?|[-,]", " ", title)` from the source,
structurally recursive on a fuel bound so that the kernel can evaluate it
(every step consumes at least one character, so fuel equal to the length
of the input is always enough).  The scan is leftmost first; alternatives
are tried in order.  The lazy `.*?` at the end of the second alternative
matches the empty string, so the alternative `/.*?` consumes exactly the
slash. -/
def cleanCharsFuel : Nat → List Char → List Char
  | 0, cs => cs
  | _ + 1, [] => []
  | fuel + 1, c :: cs =>
    if c = '(' then
      match skipParen cs with
      | some rest => ' ' :: cleanCharsFuel fuel rest
      | none => c :: cleanCharsFuel fuel cs
    else if c = '/' ∨ c = '-' ∨ c = ',' then ' ' :: cleanCharsFuel fuel cs
    else c :: cleanCharsFuel fuel cs

def cleanChars (cs : List Char) : List Char :=
  cleanCharsFuel cs.length cs

def clean_title (title : String) : String :=
  String.mk (cleanChars title.data)

/-- Embeds Python `str.lower()` (ASCII range; the vocabulary and stop words
are ASCII, so differences on exotic characters cannot change a match). -/
def pyLower (s : String) : String :=
  String.mk (s.data.map Char.toLower)

/-- Accumulator loop for `pySplit`: the first argument is the input, the
second the reversed characters of the word being built. -/
def splitWsAux : List Char → List Char → List String
  | [], acc => if acc.isEmpty then [] else [String.mk acc.reverse]
  | c :: cs, acc =>
    if c.isWhitespace then
      if acc.isEmpty then splitWsAux cs []
      else String.mk acc.reverse :: splitWsAux cs []
    else splitWsAux cs (c :: acc)

/-- Embeds Python `str.split()` with no argument: split on whitespace runs,
dropping empty pieces. -/
def pySplit (s : String) : List String :=
  splitWsAux s.data []

/-- The closed vocabulary KNOWN_TECHS of the source, in source order (the
source holds it in a set; all lower-cased members are distinct, so the
enumeration order cannot change which member a token matches). -/
def KNOWN_TECHS : List String :=
  ["SAP", "Clojure", "C#", "Java", "C++", "PHP", "Python", "JavaScript",
   "AWS", "VHDL", "COBOL", "RPG", "Delphi", "Angular", "TypeScript", "Go",
   "Ruby", "SQL", "PL/SQL", "ABAP", "NodeJS", "Flutter", "Scala", "Kotlin",
   "Rust", ".NET", "iOS", "Android"]

/-- The stop-word set IGNORE_WORDS of the source. -/
def IGNORE_WORDS : List String :=
  ["softwareentwickler", "entwickler", "entwicklerin", "entwickler/in",
   "software", "programmierer", "m/w/d", "mwd", ":in", "leiter",
   "teamleitung", "projektleiter", "senior", "junior", "fullstack",
   "praktikum", "student", "werkstudent", "trainee", "dual", "mit", "in", "als"]

/-- The inner loop of extract_tech: the first vocabulary member whose
lower-cased form equals the word. -/
def findTechFor (word : String) : Option String :=
  KNOWN_TECHS.find? (fun tech => word == pyLower tech)

/-- The word loop of extract_tech: skip stop words, return the first
vocabulary match, left to right. -/
def scanWords : List String → String
  | [] => "Other"
  | w :: ws =>
    if IGNORE_WORDS.contains w then scanWords ws
    else
      match findTechFor w with
      | some t => t
      | none => scanWords ws

/-- Embeds extract_tech (src/functions/database.py, lines 34-71): clean the
title, lower-case, tokenize on whitespace, scan. -/
def extract_tech (title : String) : String :=
  scanWords (pySplit (pyLower (clean_title title)))

/-! ## Fetcher: `fetch_jobs` (src/functions/data_import.py, lines 50-92) -/

/-- Embeds the pagination loop of fetch_jobs.  `api page` is `none` when the
HTTP request for that page raises (network error or non-2xx status), else
the `results` list of the response.  Returns the accumulated records that
the function then writes to the snapshot file, paired with the list of page
numbers actually requested.  The source loop is `while True`; `fuel` is an
upper bound on iterations, immaterial whenever it exceeds the number of
pages requested. -/
def fetch_pages {α : Type} (api : Nat → Option (List α)) :
    Nat → Nat → List α → List α × List Nat
  | 0, _, all_jobs => (all_jobs, [])
  | fuel + 1, page, all_jobs =>
    match api page with
    | none => (all_jobs, [page])
    | some jobs =>
      if jobs.isEmpty then (all_jobs, [page])
      else
        let r := fetch_pages api fuel (page + 1) (all_jobs ++ jobs)
        (r.1, page :: r.2)

/-- Embeds fetch_jobs: start at page 1 with an empty accumulator; the first
component is the list serialized to the snapshot artifact. -/
def fetch_jobs {α : Type} (api : Nat → Option (List α)) (fuel : Nat) :
    List α × List Nat :=
  fetch_pages api fuel 1 []

/-- A fake API returning two records on page 1 and an empty result list on
every later page. -/
def fakeApiTwoThenEmpty : Nat → Option (List Nat) :=
  fun page => if page = 1 then some [10, 20] else some []

/-! ## Data model: the four tables (src/models, src/db.py)

Rows are stored in insertion order; a row's primary key is its position in
the list (peewee's implicit auto-increment id).  The models Tech and
Location are imported by src/functions/database.py but their definition
files are not in the repository snapshot; the spec describes both. -/

/-- Modelled from the spec: models/Tech.py is absent from the sources; the
spec describes Tech as "persistent, deduplicated by name: a technology
label ... Created once per distinct label; never updated". -/
structure TechRow where
  name : String
  deriving DecidableEq, Repr

/-- Modelled from the spec: models/Location.py is absent from the sources;
the spec describes Location as "persistent, deduplicated by display name:
a city-level place name.  Created once per distinct name; never updated". -/
structure LocationRow where
  display_name : String
  deriving DecidableEq, Repr

/-- A raw JSON scalar, as far as the importer inspects one: the
`salary_is_predicted` field of a record may be a string, a boolean, a
number, null, or absent altogether. -/
inductive RawVal where
  | str : String → RawVal
  | boolean : Bool → RawVal
  | num : Rat → RawVal
  | null : RawVal
  deriving DecidableEq, Repr

/-- A Job row (src/models/Job.py): job_id is the unique external natural
key (a CharField, so NOT NULL — inserting a record without an id raises
IntegrityError); date is nullable; tech refers to a Tech row by key. -/
structure JobRow where
  job_id : Option String
  title : String
  description : String
  salary_is_predicted : Bool
  redirect_url : String
  company : String
  tech : Nat
  date : Option String
  deriving DecidableEq, Repr

/-- A JobLocation row (src/models/JobLocation.py): job and location are
foreign keys (row positions); district and both coordinates are nullable. -/
structure JobLocationRow where
  job : Nat
  location : Nat
  district : Option String
  latitude : Option Rat
  longitude : Option Rat
  deriving DecidableEq, Repr

/-- The database state: the four tables created by create_tables. -/
structure DB where
  techs : List TechRow
  locations : List LocationRow
  jobs : List JobRow
  jobLocations : List JobLocationRow
  deriving DecidableEq, Repr

def emptyDB : DB := ⟨[], [], [], []⟩

/-- One record of the snapshot file, with the fields already resolved the
way import_jobs_from_json resolves them: `.get` with a default collapses
an absent field to the default, `company.display_name` is pre-flattened,
and `location.display_name` is `none` when the location object or its
display_name is missing. -/
structure Record where
  id : Option String
  title : String
  description : String
  salary_is_predicted_raw : Option RawVal
  redirect_url : String
  company : String
  location_display_name : Option String
  latitude : Option Rat
  longitude : Option Rat
  deriving DecidableEq, Repr

/-- Embeds line 107: `job_data.get("salary_is_predicted") == "1"` — Python
equality of an arbitrary value with the string "1" is True exactly for the
string "1" itself; None (absent), booleans and numbers all compare False. -/
def salary_flag : Option RawVal → Bool
  | some (RawVal.str s) => s == "1"
  | _ => false

/-! ## Importer: `import_jobs_from_json` (src/functions/database.py, lines 74-185) -/

/-- The first index of a row satisfying a predicate: embeds both peewee's
`get()` inside get_or_create (SELECT by the given keys) and
`select().where(...).first()` (SQLite scans in rowid order). -/
def firstIdx {α : Type} (p : α → Bool) : List α → Option Nat
  | [] => none
  | a :: l => if p a then some 0 else (firstIdx p l).map (fun i => i + 1)

/-- Embeds line 110: `extract_tech(title) or "Other"` — a falsy (empty)
classifier result falls back to "Other". -/
def techName (r : Record) : String :=
  let t := extract_tech r.title
  if t = "" then "Other" else t

def techFind (s : DB) (n : String) : Option Nat :=
  firstIdx (fun t => t.name == n) s.techs

/-- Embeds `Tech.get_or_create(name=tech_name)` (line 111). -/
def techGetOrCreate (s : DB) (n : String) : Nat × DB :=
  match techFind s n with
  | some i => (i, s)
  | none => (s.techs.length, { s with techs := s.techs ++ [⟨n⟩] })

def locFind (s : DB) (n : String) : Option Nat :=
  firstIdx (fun l => l.display_name == n) s.locations

/-- Embeds `Location.get_or_create(display_name=city_name)` (line 147). -/
def locGetOrCreate (s : DB) (n : String) : Nat × DB :=
  match locFind s n with
  | some i => (i, s)
  | none => (s.locations.length, { s with locations := s.locations ++ [⟨n⟩] })

def jobFind (s : DB) (k : Option String) : Option Nat :=
  firstIdx (fun j => j.job_id == k) s.jobs

/-- The `defaults` dict of `Job.get_or_create` (lines 113-124). -/
def jobDefaults (r : Record) (tech : Nat) (d : Option String) : JobRow :=
  { job_id := r.id, title := r.title, description := r.description,
    salary_is_predicted := salary_flag r.salary_is_predicted_raw,
    redirect_url := r.redirect_url, company := r.company,
    tech := tech, date := d }

/-- The update branch for an existing Job (lines 126-133): every field is
overwritten except job_id and date. -/
def jobOverwrite (old : JobRow) (r : Record) (tech : Nat) : JobRow :=
  { old with
    title := r.title
    description := r.description
    salary_is_predicted := salary_flag r.salary_is_predicted_raw
    redirect_url := r.redirect_url
    company := r.company
    tech := tech }

/-- Embeds the district condition of the JobLocation lookup (lines 152-153):
`(JobLocation.district == district_name) | (JobLocation.district.is_null()
& (district_name is None))`.  peewee compiles `== None` to IS NULL; with a
non-null district_name, SQL `district = 'd'` is not satisfied by a NULL
district, and the second disjunct carries the Python boolean
`district_name is None` as the constant false. -/
def districtMatches (rowDistrict dn : Option String) : Bool :=
  (match dn with
   | none => rowDistrict.isNone
   | some d => rowDistrict == some d)
  || (rowDistrict.isNone && dn.isNone)

/-- The composite identity of a JobLocation row used by the lookup. -/
def jlKey (row : JobLocationRow) : Nat × Nat × Option String :=
  (row.job, row.location, row.district)

/-- Embeds `JobLocation.select().where(...).first()` (lines 149-154). -/
def jobLocFind (s : DB) (j l : Nat) (dn : Option String) : Option Nat :=
  firstIdx
    (fun row => row.job == j && row.location == l && districtMatches row.district dn)
    s.jobLocations

/-- Embeds lines 156-165: update latitude and longitude only where the
incoming value is not None and differs from the stored value; the boolean
is the `updated` flag deciding whether `save()` writes the row at all. -/
def coordUpdate (row : JobLocationRow) (lat lng : Option Rat) :
    JobLocationRow × Bool :=
  let st1 :=
    if lat.isSome && row.latitude != lat then
      ({ row with latitude := lat }, true)
    else (row, false)
  if lng.isSome && st1.1.longitude != lng then
    ({ st1.1 with longitude := lng }, true)
  else st1

/-- Embeds lines 141-145: split the display name on comma and strip each
part; exactly two parts give (district, city), any other shape takes the
first part as the city with no district. -/
def splitCommaAux : List Char → List Char → List String
  | [], acc => [String.mk acc.reverse]
  | c :: cs, acc =>
    if c = ',' then String.mk acc.reverse :: splitCommaAux cs []
    else splitCommaAux cs (c :: acc)

/-- Embeds Python `display_name.split(",")`. -/
def splitComma (s : String) : List String :=
  splitCommaAux s.data []

/-- Embeds Python `str.strip()`: drop whitespace from both ends. -/
def pyStrip (s : String) : String :=
  String.mk (((s.data.dropWhile Char.isWhitespace).reverse.dropWhile
    Char.isWhitespace).reverse)

def parseLocation (dn : String) : Option String × String :=
  let parts := (splitComma dn).map pyStrip
  match parts with
  | [d, c] => (some d, c)
  | _ => (none, parts.headD "")

/-- Lines 149-173: the conditional JobLocation lookup followed by either
the coordinate update of the found row (saved only when the updated flag
is set) or the creation of a new row. -/
def jobLocStep (s : DB) (jobIdx cityIdx : Nat) (dn : Option String)
    (lat lng : Option Rat) : DB :=
  match jobLocFind s jobIdx cityIdx dn with
  | some i =>
    match s.jobLocations[i]? with
    | some row =>
      let cu := coordUpdate row lat lng
      if cu.2 then { s with jobLocations := s.jobLocations.set i cu.1 }
      else s
    | none => s
  | none =>
    { s with jobLocations := s.jobLocations ++ [⟨jobIdx, cityIdx, dn, lat, lng⟩] }

/-- The location half of the per-record body (lines 135-173), given the
resolved Job row position.  `if display_name and display_name !=
"Deutschland"` is Python truthiness: both an absent and an empty display
name skip the block. -/
def processLocation (s : DB) (jobIdx : Nat) (r : Record) : DB :=
  match r.location_display_name with
  | none => s
  | some dn =>
    if dn = "" ∨ dn = "Deutschland" then s
    else
      let dc := parseLocation dn
      let lc := locGetOrCreate s dc.2
      jobLocStep lc.2 jobIdx lc.1 dc.1 r.latitude r.longitude

/-- One iteration of the record loop (lines 102-177).  A record without an
id reaches `Job.get_or_create(job_id=None, ...)`: the get finds nothing
(no row with a NULL job_id can have been inserted) — unless the state
already holds such a row — and the create violates the NOT NULL constraint
on job_id, raising IntegrityError; the handler at line 174 logs it and the
loop continues with the next record, keeping the Tech row already made. -/
def processRecord (d : Option String) (s : DB) (r : Record) : DB :=
  let tc := techGetOrCreate s (techName r)
  let s1 := tc.2
  match jobFind s1 r.id with
  | some j =>
    let old := (s1.jobs[j]?).getD (jobDefaults r tc.1 d)
    let s2 := { s1 with jobs := s1.jobs.set j (jobOverwrite old r tc.1) }
    processLocation s2 j r
  | none =>
    match r.id with
    | none => s1
    | some _ =>
      let s2 := { s1 with jobs := s1.jobs ++ [jobDefaults r tc.1 d] }
      processLocation s2 s1.jobs.length r

/-- The record loop over the whole snapshot. -/
def runRecords (d : Option String) (s : DB) (rs : List Record) : DB :=
  rs.foldl (processRecord d) s

/-! ## Date extraction and the import wrapper (lines 93-100, 179-185) -/

/-- Does the ISO date pattern `\d{4}-\d{2}-\d{2}` match at the head of the
character list?  Returns the ten matched characters. -/
def isDateAt : List Char → Option String
  | y1 :: y2 :: y3 :: y4 :: h1 :: m1 :: m2 :: h2 :: d1 :: d2 :: _ =>
    if y1.isDigit && y2.isDigit && y3.isDigit && y4.isDigit &&
        h1 == '-' && m1.isDigit && m2.isDigit &&
        h2 == '-' && d1.isDigit && d2.isDigit then
      some (String.mk [y1, y2, y3, y4, h1, m1, m2, h2, d1, d2])
    else none
  | _ => none

/-- Embeds `re.search(r"(\d{4}-\d{2}-\d{2})", json_path)` (line 94): the
leftmost ten-character window matching the pattern. -/
def searchDate : List Char → Option String
  | [] => none
  | c :: cs =>
    match isDateAt (c :: cs) with
    | some s => some s
    | none => searchDate cs

def isLeapYear (y : Nat) : Bool :=
  y % 4 == 0 && (y % 100 != 0 || y % 400 == 0)

def daysInMonth (y m : Nat) : Nat :=
  if m == 2 then (if isLeapYear y then 29 else 28)
  else if m == 4 || m == 6 || m == 9 || m == 11 then 30
  else 31

def digitVal (c : Char) : Nat := c.toNat - '0'.toNat

/-- Embeds `datetime.strptime(..., "%Y-%m-%d")` (line 95) on a string the
regex matched: it succeeds exactly for a real calendar date (year at least
1, month 1..12, day within the month, Gregorian leap rule); otherwise it
raises ValueError. -/
def validDate (ds : String) : Bool :=
  match ds.data with
  | [y1, y2, y3, y4, _, m1, m2, _, d1, d2] =>
    let y := ((digitVal y1 * 10 + digitVal y2) * 10 + digitVal y3) * 10 + digitVal y4
    let m := digitVal m1 * 10 + digitVal m2
    let d := digitVal d1 * 10 + digitVal d2
    decide (1 ≤ y) && decide (1 ≤ m) && decide (m ≤ 12) &&
      decide (1 ≤ d) && decide (d ≤ daysInMonth y m)
  | _ => false

/-- What import_jobs_from_json leaves behind: the database state, and
whether the call was aborted by the outer exception handler (lines
184-185) before processing any record. -/
structure ImportOutcome where
  db : DB
  aborted : Bool
  deriving DecidableEq, Repr

/-- Embeds import_jobs_from_json (lines 74-185), with the snapshot file's
parsed content supplied as `jobs_data` (file reading and JSON decoding are
I/O, abstracted away; their failures return with the state untouched just
like the aborted case).  When the path holds a matching date substring
that is not a valid calendar date, `datetime.strptime` raises ValueError
inside the outer try, before any record is touched: the generic handler
logs it and the function returns with nothing imported.  When no substring
matches, the date is None (a logged warning) and the batch proceeds. -/
def import_jobs_from_json (json_path : String) (jobs_data : List Record)
    (s : DB) : ImportOutcome :=
  match searchDate json_path.data with
  | some ds =>
    if validDate ds then ⟨runRecords (some ds) s jobs_data, false⟩
    else ⟨s, true⟩
  | none => ⟨runRecords none s jobs_data, false⟩

/-- The row counts of the four tables, in the order Job, Tech, Location,
JobLocation. -/
def rowCounts (s : DB) : Nat × Nat × Nat × Nat :=
  (s.jobs.length, s.techs.length, s.locations.length, s.jobLocations.length)

/-- The report of counts the spec says the importer returns.  Modelled from
the spec: "Returns a report of counts: records seen, Jobs created, Jobs
updated, JobLocations created, JobLocations updated, records skipped with
reason"; no such structure exists in the source. -/
structure ImportReport where
  recordsSeen : Nat
  jobsCreated : Nat
  jobsUpdated : Nat
  jobLocationsCreated : Nat
  jobLocationsUpdated : Nat
  recordsSkipped : List (Nat × String)
  deriving DecidableEq, Repr

/-- The value import_jobs_from_json returns to its caller: the Python
function body (lines 74-185) contains no return statement, so every path
returns None. -/
def import_return (json_path : String) (jobs_data : List Record) (s : DB) :
    Option ImportReport :=
  none

/-! ## Lemmas about `firstIdx` -/

theorem firstIdx_map {α β : Type} (f : α → β) (q : β → Bool) :
    ∀ l : List α, firstIdx (fun a => q (f a)) l = firstIdx q (l.map f) := by
  intro l
  induction l with
  | nil => rfl
  | cons a l ih => simp [firstIdx, ih]

theorem firstIdx_append_some {α : Type} (p : α → Bool) :
    ∀ (l t : List α) (i : Nat), firstIdx p l = some i →
      firstIdx p (l ++ t) = some i := by
  intro l
  induction l with
  | nil => intro t i h; simp [firstIdx] at h
  | cons a l ih =>
    intro t i h
    by_cases hp : p a = true
    · simp only [firstIdx, hp, if_pos] at h
      simpa [firstIdx, hp] using h
    · simp only [firstIdx, hp, if_neg, Bool.not_eq_true] at h
      cases hfl : firstIdx p l with
      | none => rw [hfl] at h; simp at h
      | some i0 =>
        rw [hfl] at h
        simp only [Option.map_some'] at h
        rw [List.cons_append]
        simp [firstIdx, hp, ih t i0 hfl, ← h]

theorem firstIdx_none_iff {α : Type} (p : α → Bool) :
    ∀ l : List α, firstIdx p l = none ↔ ∀ x ∈ l, p x = false := by
  intro l
  induction l with
  | nil => simp [firstIdx]
  | cons a l ih =>
    simp only [firstIdx]
    constructor
    · intro h
      split at h
      · cases h
      · intro x hx
        cases hx with
        | head => simp_all
        | tail _ hx =>
          cases hfl : firstIdx p l with
          | none => exact (ih.mp hfl) x hx
          | some i0 => rw [hfl] at h; simp at h
    · intro h
      have ha : p a = false := h a (List.mem_cons_self a l)
      simp [ha, ih.mpr (fun x hx => h x (List.mem_cons_of_mem a hx))]

theorem firstIdx_append_fresh {α : Type} (p : α → Bool) (l : List α) (x : α)
    (hl : firstIdx p l = none) (hx : p x = true) :
    firstIdx p (l ++ [x]) = some l.length := by
  induction l with
  | nil => simp [firstIdx, hx]
  | cons a l ih =>
    simp only [firstIdx] at hl
    split at hl
    · cases hl
    · cases hfl : firstIdx p l with
      | none =>
        have := ih hfl
        simp only [firstIdx, List.cons_append]
        simp_all
      | some i0 => rw [hfl] at hl; simp at hl

theorem firstIdx_append_none {α : Type} (p : α → Bool) (l e : List α)
    (hl : firstIdx p l = none) (he : ∀ x ∈ e, p x = false) :
    firstIdx p (l ++ e) = none := by
  rw [firstIdx_none_iff]
  intro x hx
  rcases List.mem_append.mp hx with h | h
  · exact ((firstIdx_none_iff p l).mp hl) x h
  · exact he x h

theorem firstIdx_lt_length {α : Type} (p : α → Bool) :
    ∀ (l : List α) (i : Nat), firstIdx p l = some i → i < l.length := by
  intro l
  induction l with
  | nil => intro i h; simp [firstIdx] at h
  | cons a l ih =>
    intro i h
    simp only [firstIdx] at h
    split at h
    · cases h; simp
    · cases hfl : firstIdx p l with
      | none => rw [hfl] at h; simp at h
      | some i0 =>
        rw [hfl] at h
        simp only [Option.map_some'] at h
        have := ih i0 hfl
        have hi : i0 + 1 = i := Option.some.inj h
        simp only [List.length_cons]
        omega

theorem firstIdx_getElem {α : Type} (p : α → Bool) :
    ∀ (l : List α) (i : Nat), firstIdx p l = some i →
      ∃ a, l[i]? = some a ∧ p a = true := by
  intro l
  induction l with
  | nil => intro i h; simp [firstIdx] at h
  | cons a l ih =>
    intro i h
    simp only [firstIdx] at h
    split at h
    · cases h
      refine ⟨a, by simp, by assumption⟩
    · cases hfl : firstIdx p l with
      | none => rw [hfl] at h; simp at h
      | some i0 =>
        rw [hfl] at h
        simp only [Option.map_some'] at h
        rcases ih i0 hfl with ⟨b, hb, hpb⟩
        have hi : i0 + 1 = i := Option.some.inj h
        subst hi
        exact ⟨b, by simpa using hb, hpb⟩

theorem set_getElem_self {α : Type} :
    ∀ (l : List α) (i : Nat) (a : α), l[i]? = some a → l.set i a = l := by
  intro l
  induction l with
  | nil => intro i a h; simp at h
  | cons b l ih =>
    intro i a h
    cases i with
    | zero => simp_all
    | succ j =>
      simp only [List.getElem?_cons_succ] at h
      simp [List.set_cons_succ, ih j a h]

theorem map_set_list {α β : Type} (f : α → β) :
    ∀ (l : List α) (i : Nat) (x : α),
      (l.set i x).map f = (l.map f).set i (f x) := by
  intro l
  induction l with
  | nil => intro i x; simp
  | cons a l ih =>
    intro i x
    cases i with
    | zero => simp
    | succ j => simp [ih j x]

/-! ## Key lists and how one record's processing evolves the state -/

def jobKeys (s : DB) : List (Option String) := s.jobs.map JobRow.job_id

def jlKeys (s : DB) : List (Nat × Nat × Option String) :=
  s.jobLocations.map jlKey

/-- The state changes a single record's processing can make: Tech and
Location rows are only ever appended; Job rows are appended (always with a
non-null job_id) or updated in place without touching job_id; JobLocation
rows are appended or updated in place without touching their (job,
location, district) identity. -/
def Evolves (s t : DB) : Prop :=
  (∃ e, t.techs = s.techs ++ e) ∧
  (∃ e, t.locations = s.locations ++ e) ∧
  (∃ e, jobKeys t = jobKeys s ++ e ∧ ∀ k ∈ e, k ≠ none) ∧
  (∃ e, jlKeys t = jlKeys s ++ e)

theorem Evolves.refl (s : DB) : Evolves s s :=
  ⟨⟨[], by simp⟩, ⟨[], by simp⟩, ⟨[], by simp, by simp⟩, ⟨[], by simp⟩⟩

theorem Evolves.trans {s t u : DB} (h1 : Evolves s t) (h2 : Evolves t u) :
    Evolves s u := by
  obtain ⟨⟨e1, he1⟩, ⟨e2, he2⟩, ⟨e3, he3, hn3⟩, ⟨e4, he4⟩⟩ := h1
  obtain ⟨⟨f1, hf1⟩, ⟨f2, hf2⟩, ⟨f3, hf3, hn4⟩, ⟨f4, hf4⟩⟩ := h2
  refine ⟨⟨e1 ++ f1, ?_⟩, ⟨e2 ++ f2, ?_⟩, ⟨e3 ++ f3, ?_, ?_⟩, ⟨e4 ++ f4, ?_⟩⟩
  · rw [hf1, he1, List.append_assoc]
  · rw [hf2, he2, List.append_assoc]
  · rw [hf3, he3, List.append_assoc]
  · intro k hk
    rcases List.mem_append.mp hk with h | h
    · exact hn3 k h
    · exact hn4 k h
  · rw [hf4, he4, List.append_assoc]

theorem techGetOrCreate_evolves (s : DB) (n : String) :
    Evolves s (techGetOrCreate s n).2 := by
  unfold techGetOrCreate
  cases techFind s n with
  | some i => exact Evolves.refl s
  | none =>
    exact ⟨⟨[⟨n⟩], rfl⟩, ⟨[], by simp⟩,
      ⟨[], by simp [jobKeys], by simp⟩, ⟨[], by simp [jlKeys]⟩⟩

theorem locGetOrCreate_evolves (s : DB) (n : String) :
    Evolves s (locGetOrCreate s n).2 := by
  unfold locGetOrCreate
  cases locFind s n with
  | some i => exact Evolves.refl s
  | none =>
    exact ⟨⟨[], by simp⟩, ⟨[⟨n⟩], rfl⟩,
      ⟨[], by simp [jobKeys], by simp⟩, ⟨[], by simp [jlKeys]⟩⟩

theorem locGetOrCreate_other (s : DB) (n : String) :
    (locGetOrCreate s n).2.techs = s.techs ∧
    (locGetOrCreate s n).2.jobs = s.jobs ∧
    (locGetOrCreate s n).2.jobLocations = s.jobLocations := by
  unfold locGetOrCreate
  cases locFind s n with
  | some i => exact ⟨rfl, rfl, rfl⟩
  | none => exact ⟨rfl, rfl, rfl⟩

theorem techGetOrCreate_other (s : DB) (n : String) :
    (techGetOrCreate s n).2.locations = s.locations ∧
    (techGetOrCreate s n).2.jobs = s.jobs ∧
    (techGetOrCreate s n).2.jobLocations = s.jobLocations := by
  unfold techGetOrCreate
  cases techFind s n with
  | some i => exact ⟨rfl, rfl, rfl⟩
  | none => exact ⟨rfl, rfl, rfl⟩

theorem coordUpdate_key (row : JobLocationRow) (lat lng : Option Rat) :
    jlKey (coordUpdate row lat lng).1 = jlKey row := by
  unfold coordUpdate
  dsimp only
  split
  · split
    · rfl
    · rfl
  · split
    · rfl
    · rfl

theorem jobLocStep_evolves (s : DB) (jobIdx cityIdx : Nat)
    (dn : Option String) (lat lng : Option Rat) :
    Evolves s (jobLocStep s jobIdx cityIdx dn lat lng) := by
  unfold jobLocStep
  split
  next i hjl =>
    split
    next row hrow =>
      dsimp only
      split
      next hcu =>
        refine ⟨⟨[], by simp⟩, ⟨[], by simp⟩,
          ⟨[], by simp [jobKeys], by simp⟩, ⟨[], ?_⟩⟩
        simp only [jlKeys, List.append_nil]
        rw [map_set_list, coordUpdate_key]
        have hmk : (s.jobLocations.map jlKey)[i]? = some (jlKey row) := by
          simp [hrow]
        rw [set_getElem_self _ _ _ hmk]
      next hcu => exact Evolves.refl s
    next hrow => exact Evolves.refl s
  next hjl =>
    exact ⟨⟨[], by simp⟩, ⟨[], by simp⟩,
      ⟨[], by simp [jobKeys], by simp⟩,
      ⟨[(jobIdx, cityIdx, dn)], by simp [jlKeys, jlKey]⟩⟩

theorem jobLocStep_other (s : DB) (jobIdx cityIdx : Nat)
    (dn : Option String) (lat lng : Option Rat) :
    (jobLocStep s jobIdx cityIdx dn lat lng).techs = s.techs ∧
    (jobLocStep s jobIdx cityIdx dn lat lng).locations = s.locations ∧
    (jobLocStep s jobIdx cityIdx dn lat lng).jobs = s.jobs := by
  unfold jobLocStep
  split
  next i hjl =>
    split
    next row hrow =>
      dsimp only
      split
      next hcu => exact ⟨rfl, rfl, rfl⟩
      next hcu => exact ⟨rfl, rfl, rfl⟩
    next hrow => exact ⟨rfl, rfl, rfl⟩
  next hjl => exact ⟨rfl, rfl, rfl⟩

theorem processLocation_evolves (s : DB) (j : Nat) (r : Record) :
    Evolves s (processLocation s j r) := by
  unfold processLocation
  cases r.location_display_name with
  | none => exact Evolves.refl s
  | some dn =>
    by_cases hdn : dn = "" ∨ dn = "Deutschland"
    · simp only [if_pos hdn]
      exact Evolves.refl s
    · simp only [if_neg hdn]
      exact Evolves.trans (locGetOrCreate_evolves s (parseLocation dn).2)
        (jobLocStep_evolves _ _ _ _ _ _)

theorem processLocation_other (s : DB) (j : Nat) (r : Record) :
    (processLocation s j r).techs = s.techs ∧
    (processLocation s j r).jobs = s.jobs := by
  unfold processLocation
  cases r.location_display_name with
  | none => exact ⟨rfl, rfl⟩
  | some dn =>
    by_cases hdn : dn = "" ∨ dn = "Deutschland"
    · simp [if_pos hdn]
    · simp only [if_neg hdn]
      have h1 := jobLocStep_other (locGetOrCreate s (parseLocation dn).2).2 j
        (locGetOrCreate s (parseLocation dn).2).1 (parseLocation dn).1
        r.latitude r.longitude
      have h2 := locGetOrCreate_other s (parseLocation dn).2
      exact ⟨h1.1.trans h2.1, h1.2.2.trans h2.2.1⟩

theorem techGetOrCreate_finds (s : DB) (n : String) :
    techFind (techGetOrCreate s n).2 n = some (techGetOrCreate s n).1 := by
  unfold techGetOrCreate
  cases hf : techFind s n with
  | some i => exact hf
  | none =>
    unfold techFind at hf ⊢
    exact firstIdx_append_fresh _ _ _ hf (by simp)

theorem locGetOrCreate_finds (s : DB) (n : String) :
    locFind (locGetOrCreate s n).2 n = some (locGetOrCreate s n).1 := by
  unfold locGetOrCreate
  cases hf : locFind s n with
  | some i => exact hf
  | none =>
    unfold locFind at hf ⊢
    exact firstIdx_append_fresh _ _ _ hf (by simp)

theorem techGetOrCreate_found (s : DB) (n : String) (i : Nat)
    (h : techFind s n = some i) : techGetOrCreate s n = (i, s) := by
  unfold techGetOrCreate
  rw [h]

theorem locGetOrCreate_found (s : DB) (n : String) (i : Nat)
    (h : locFind s n = some i) : locGetOrCreate s n = (i, s) := by
  unfold locGetOrCreate
  rw [h]

theorem districtMatches_self (dn : Option String) :
    districtMatches dn dn = true := by
  unfold districtMatches
  cases dn <;> simp

theorem jobLocFind_eq_keys (s : DB) (j l : Nat) (dn : Option String) :
    jobLocFind s j l dn =
      firstIdx (fun p => p.1 == j && p.2.1 == l && districtMatches p.2.2 dn)
        (jlKeys s) := by
  unfold jobLocFind jlKeys
  rw [← firstIdx_map jlKey
    (fun p => p.1 == j && p.2.1 == l && districtMatches p.2.2 dn)]
  rfl

theorem jobFind_eq_keys (s : DB) (k : Option String) :
    jobFind s k = firstIdx (fun x => x == k) (jobKeys s) := by
  unfold jobFind jobKeys
  rw [← firstIdx_map JobRow.job_id (fun x => x == k)]

theorem jobLocStep_finds (s : DB) (a b : Nat) (dn : Option String)
    (lat lng : Option Rat) :
    jobLocFind (jobLocStep s a b dn lat lng) a b dn ≠ none := by
  unfold jobLocStep
  split
  next i hjl =>
    split
    next row hrow =>
      dsimp only
      split
      next hcu =>
        rw [jobLocFind_eq_keys] at hjl ⊢
        simp only [jlKeys, map_set_list, coordUpdate_key]
        have hmk : (s.jobLocations.map jlKey)[i]? = some (jlKey row) := by
          simp [hrow]
        rw [set_getElem_self _ _ _ hmk]
        simp only [jlKeys] at hjl
        simp [hjl]
      next hcu => simp [hjl]
    next hrow => simp [hjl]
  next hjl =>
    rw [jobLocFind_eq_keys] at hjl ⊢
    have hk : jlKeys
        { s with
          jobLocations := s.jobLocations ++ [⟨a, b, dn, lat, lng⟩] } = jlKeys s ++ [(a, b, dn)] := by
      simp [jlKeys, jlKey]
    rw [hk]
    rw [firstIdx_append_fresh _ _ _ hjl (by simp [districtMatches_self])]
    simp

theorem jobLocStep_counts (s : DB) (a b : Nat) (dn : Option String)
    (lat lng : Option Rat) (h : jobLocFind s a b dn ≠ none) :
    (jobLocStep s a b dn lat lng).jobLocations.length =
      s.jobLocations.length := by
  unfold jobLocStep
  split
  next i hjl =>
    split
    next row hrow =>
      dsimp only
      split
      next hcu => simp
      next hcu => rfl
    next hrow => rfl
  next hjl => exact absurd hjl h

theorem processRecord_evolves (d : Option String) (s : DB) (r : Record) :
    Evolves s (processRecord d s r) := by
  unfold processRecord
  have htech := techGetOrCreate_evolves s (techName r)
  refine Evolves.trans htech ?_
  dsimp only
  split
  next j hj =>
    refine Evolves.trans ?_ (processLocation_evolves _ _ _)
    rcases firstIdx_getElem _ _ _ hj with ⟨old, hold, hpold⟩
    refine ⟨⟨[], by simp⟩, ⟨[], by simp⟩, ⟨[], ?_, by simp⟩, ⟨[], by simp [jlKeys]⟩⟩
    simp only [jobKeys, List.append_nil]
    rw [hold]
    dsimp only [Option.getD_some]
    rw [map_set_list]
    have hmk : ((techGetOrCreate s (techName r)).2.jobs.map JobRow.job_id)[j]? =
        some old.job_id := by
      simp [hold]
    have hkeep : (jobOverwrite old r (techGetOrCreate s (techName r)).1).job_id =
        old.job_id := rfl
    rw [hkeep, set_getElem_self _ _ _ hmk]
  next hj =>
    split
    next hid => exact Evolves.refl _
    next k hid =>
      refine Evolves.trans ?_ (processLocation_evolves _ _ _)
      refine ⟨⟨[], by simp⟩, ⟨[], by simp⟩, ⟨[r.id], ?_, ?_⟩, ⟨[], by simp [jlKeys]⟩⟩
      · simp [jobKeys, jobDefaults]
      · intro x hx
        simp only [List.mem_singleton] at hx
        subst hx
        rw [hid]
        simp

theorem runRecords_evolves (d : Option String) :
    ∀ (rs : List Record) (s : DB), Evolves s (runRecords d s rs) := by
  intro rs
  induction rs with
  | nil => intro s; exact Evolves.refl s
  | cons r rs ih =>
    intro s
    exact Evolves.trans (processRecord_evolves d s r) (ih (processRecord d s r))

theorem techFind_mono {s t : DB} (h : Evolves s t) (n : String) (i : Nat)
    (hf : techFind s n = some i) : techFind t n = some i := by
  obtain ⟨⟨e, he⟩, _, _, _⟩ := h
  unfold techFind at hf ⊢
  rw [he]
  exact firstIdx_append_some _ _ _ _ hf

theorem locFind_mono {s t : DB} (h : Evolves s t) (n : String) (i : Nat)
    (hf : locFind s n = some i) : locFind t n = some i := by
  obtain ⟨_, ⟨e, he⟩, _, _⟩ := h
  unfold locFind at hf ⊢
  rw [he]
  exact firstIdx_append_some _ _ _ _ hf

theorem jobFind_mono {s t : DB} (h : Evolves s t) (k : Option String) (i : Nat)
    (hf : jobFind s k = some i) : jobFind t k = some i := by
  obtain ⟨_, _, ⟨e, he, _⟩, _⟩ := h
  rw [jobFind_eq_keys] at hf ⊢
  rw [he]
  exact firstIdx_append_some _ _ _ _ hf

theorem jobFind_none_mono {s t : DB} (h : Evolves s t)
    (hf : jobFind s none = none) : jobFind t none = none := by
  obtain ⟨_, _, ⟨e, he, hne⟩, _⟩ := h
  rw [jobFind_eq_keys] at hf ⊢
  rw [he]
  refine firstIdx_append_none _ _ _ hf ?_
  intro x hx
  have := hne x hx
  cases x with
  | none => exact absurd rfl this
  | some v => rfl

theorem jobLocFind_mono {s t : DB} (h : Evolves s t) (j l : Nat)
    (dn : Option String) (i : Nat) (hf : jobLocFind s j l dn = some i) :
    jobLocFind t j l dn = some i := by
  obtain ⟨_, _, _, ⟨e, he⟩⟩ := h
  rw [jobLocFind_eq_keys] at hf ⊢
  rw [he]
  exact firstIdx_append_some _ _ _ _ hf

/-! ## Saturation: what a record's first processing guarantees for its second -/

/-- The entities of a record are present in the state, under the keys its
processing looks up: the Tech row exists; the Job row exists (or the
record has no id and no NULL-keyed job exists, in which case its insert
fails again); and, when the record carries a usable location, the
Location row and the (job, location, district) JobLocation row exist. -/
def PresLoc (r : Record) (j : Nat) (s : DB) : Prop :=
  match r.location_display_name with
  | none => True
  | some dn =>
    dn = "" ∨ dn = "Deutschland" ∨
      ∃ li, locFind s (parseLocation dn).2 = some li ∧
        jobLocFind s j li (parseLocation dn).1 ≠ none

def Pres (r : Record) (s : DB) : Prop :=
  techFind s (techName r) ≠ none ∧
  match jobFind s r.id with
  | some j => PresLoc r j s
  | none => r.id = none

theorem Pres.mono {r : Record} {s t : DB} (h : Evolves s t)
    (hp : Pres r s) : Pres r t := by
  obtain ⟨ht, hrest⟩ := hp
  constructor
  · cases hf : techFind s (techName r) with
    | none => exact absurd hf ht
    | some i => rw [techFind_mono h _ _ hf]; simp
  · cases hjf : jobFind s r.id with
    | some j =>
      rw [hjf] at hrest
      rw [jobFind_mono h _ _ hjf]
      unfold PresLoc at hrest ⊢
      cases hdn : r.location_display_name with
      | none => trivial
      | some dn =>
        rw [hdn] at hrest
        rcases hrest with h1 | h2 | ⟨li, hli, hjl⟩
        · exact Or.inl h1
        · exact Or.inr (Or.inl h2)
        · refine Or.inr (Or.inr ⟨li, locFind_mono h _ _ hli, ?_⟩)
          cases hjlf : jobLocFind s j li (parseLocation dn).1 with
          | none => exact absurd hjlf hjl
          | some i => rw [jobLocFind_mono h _ _ _ _ hjlf]; simp
    | none =>
      rw [hjf] at hrest
      have : r.id = none := hrest
      rw [this] at hjf ⊢
      rw [jobFind_none_mono h hjf]

theorem techFind_congr {s t : DB} (h : t.techs = s.techs) (n : String) :
    techFind t n = techFind s n := by
  unfold techFind
  rw [h]

theorem locFind_congr {s t : DB} (h : t.locations = s.locations) (n : String) :
    locFind t n = locFind s n := by
  unfold locFind
  rw [h]

theorem jobLocFind_congr {s t : DB} (h : t.jobLocations = s.jobLocations)
    (j l : Nat) (dn : Option String) :
    jobLocFind t j l dn = jobLocFind s j l dn := by
  unfold jobLocFind
  rw [h]

theorem processLocation_eq (s2 : DB) (j : Nat) (r : Record) (dn : String)
    (hdn : r.location_display_name = some dn)
    (hx : ¬(dn = "" ∨ dn = "Deutschland")) :
    processLocation s2 j r =
      jobLocStep (locGetOrCreate s2 (parseLocation dn).2).2 j
        (locGetOrCreate s2 (parseLocation dn).2).1 (parseLocation dn).1
        r.latitude r.longitude := by
  unfold processLocation
  rw [hdn]
  simp only [if_neg hx]

theorem processLocation_pres (s2 : DB) (j : Nat) (r : Record)
    (ht : techFind s2 (techName r) ≠ none)
    (hj : jobFind s2 r.id = some j) :
    Pres r (processLocation s2 j r) := by
  have hev := processLocation_evolves s2 j r
  constructor
  · cases hf : techFind s2 (techName r) with
    | none => exact absurd hf ht
    | some i => rw [techFind_mono hev _ _ hf]; simp
  · rw [jobFind_mono hev _ _ hj]
    unfold PresLoc
    cases hdn : r.location_display_name with
    | none => trivial
    | some dn =>
      by_cases hx : dn = "" ∨ dn = "Deutschland"
      · rcases hx with h1 | h2
        · exact Or.inl h1
        · exact Or.inr (Or.inl h2)
      · have heq := processLocation_eq s2 j r dn hdn hx
        refine Or.inr (Or.inr
          ⟨(locGetOrCreate s2 (parseLocation dn).2).1, ?_, ?_⟩)
        · rw [heq]
          rw [locFind_congr (jobLocStep_other _ _ _ _ _ _).2.1]
          exact locGetOrCreate_finds s2 (parseLocation dn).2
        · rw [heq]
          exact jobLocStep_finds _ _ _ _ _ _

/-- The update branch of Job.get_or_create only rewrites non-key fields of
an existing row, so the state evolves without new keys. -/
theorem jobsSet_evolves (s1 : DB) (j : Nat) (r : Record) (t : Nat)
    (d : Option String) (hj : jobFind s1 r.id = some j) :
    Evolves s1
      { s1 with
        jobs := s1.jobs.set j (jobOverwrite ((s1.jobs[j]?).getD (jobDefaults r t d)) r t) } := by
  rcases firstIdx_getElem _ _ _ hj with ⟨old, hold, hpold⟩
  refine ⟨⟨[], by simp⟩, ⟨[], by simp⟩, ⟨[], ?_, by simp⟩, ⟨[], by simp [jlKeys]⟩⟩
  simp only [jobKeys, List.append_nil]
  rw [hold]
  dsimp only [Option.getD_some]
  rw [map_set_list]
  have hmk : (s1.jobs.map JobRow.job_id)[j]? = some old.job_id := by
    simp [hold]
  have hkeep : (jobOverwrite old r t).job_id = old.job_id := rfl
  rw [hkeep, set_getElem_self _ _ _ hmk]

theorem jobsAppend_evolves (s1 : DB) (row : JobRow) (h : row.job_id ≠ none) :
    Evolves s1 { s1 with jobs := s1.jobs ++ [row] } := by
  refine ⟨⟨[], by simp⟩, ⟨[], by simp⟩, ⟨[row.job_id], ?_, ?_⟩,
    ⟨[], by simp [jlKeys]⟩⟩
  · simp [jobKeys]
  · intro x hx
    simp only [List.mem_singleton] at hx
    subst hx
    exact h

theorem jobFind_append_fresh (s1 : DB) (row : JobRow)
    (hf : jobFind s1 row.job_id = none) :
    jobFind { s1 with jobs := s1.jobs ++ [row] } row.job_id =
      some s1.jobs.length := by
  rw [jobFind_eq_keys] at hf ⊢
  have hk : jobKeys { s1 with jobs := s1.jobs ++ [row] } =
      jobKeys s1 ++ [row.job_id] := by
    simp [jobKeys]
  rw [hk]
  rw [firstIdx_append_fresh _ _ _ hf (by simp)]
  simp [jobKeys]

theorem processRecord_pres_self (d : Option String) (s : DB) (r : Record) :
    Pres r (processRecord d s r) := by
  unfold processRecord
  dsimp only
  have hts := techGetOrCreate_finds s (techName r)
  split
  next j hj =>
    have hev := jobsSet_evolves (techGetOrCreate s (techName r)).2 j r
      (techGetOrCreate s (techName r)).1 d hj
    refine processLocation_pres _ j r ?_ ?_
    · rw [techFind_mono hev _ _ hts]
      simp
    · exact jobFind_mono hev r.id j hj
  next hj =>
    split
    next hid =>
      refine ⟨by rw [hts]; simp, ?_⟩
      rw [hj, hid]
    next k hid =>
      have hfr : jobFind (techGetOrCreate s (techName r)).2
          (jobDefaults r (techGetOrCreate s (techName r)).1 d).job_id = none := hj
      have hev := jobsAppend_evolves (techGetOrCreate s (techName r)).2
        (jobDefaults r (techGetOrCreate s (techName r)).1 d)
        (by simp [jobDefaults, hid])
      have hfound := jobFind_append_fresh (techGetOrCreate s (techName r)).2
        (jobDefaults r (techGetOrCreate s (techName r)).1 d) hfr
      refine processLocation_pres _ _ r ?_ hfound
      rw [techFind_mono hev _ _ hts]
      simp

theorem PresLoc_congr {s t : DB} (hl : t.locations = s.locations)
    (hjl : t.jobLocations = s.jobLocations) (r : Record) (j : Nat)
    (h : PresLoc r j s) : PresLoc r j t := by
  unfold PresLoc at h ⊢
  cases hdn : r.location_display_name with
  | none => trivial
  | some dn =>
    rw [hdn] at h
    rcases h with h1 | h2 | ⟨li, hli, hq⟩
    · exact Or.inl h1
    · exact Or.inr (Or.inl h2)
    · refine Or.inr (Or.inr ⟨li, ?_, ?_⟩)
      · rw [locFind_congr hl]
        exact hli
      · rw [jobLocFind_congr hjl]
        exact hq

theorem processLocation_counts (s2 : DB) (j : Nat) (r : Record)
    (hpl : PresLoc r j s2) :
    rowCounts (processLocation s2 j r) = rowCounts s2 := by
  unfold PresLoc at hpl
  unfold processLocation
  cases hdn : r.location_display_name with
  | none => rfl
  | some dn =>
    rw [hdn] at hpl
    by_cases hx : dn = "" ∨ dn = "Deutschland"
    · simp [if_pos hx]
    · simp only [if_neg hx]
      rcases hpl with h1 | h2 | ⟨li, hli, hjl⟩
      · exact absurd (Or.inl h1) hx
      · exact absurd (Or.inr h2) hx
      · have hlg := locGetOrCreate_found s2 (parseLocation dn).2 li hli
        rw [hlg]
        dsimp only
        have ho := jobLocStep_other s2 j li (parseLocation dn).1
          r.latitude r.longitude
        have hc := jobLocStep_counts s2 j li (parseLocation dn).1
          r.latitude r.longitude hjl
        simp [rowCounts, ho.1, ho.2.1, ho.2.2, hc]

theorem processRecord_counts (d : Option String) (s : DB) (r : Record)
    (hp : Pres r s) : rowCounts (processRecord d s r) = rowCounts s := by
  obtain ⟨ht, hrest⟩ := hp
  cases hf : techFind s (techName r) with
  | none => exact absurd hf ht
  | some ti =>
    have htc := techGetOrCreate_found s (techName r) ti hf
    unfold processRecord
    rw [htc]
    dsimp only
    cases hjf : jobFind s r.id with
    | some j =>
      simp only [hjf] at hrest
      dsimp only
      have hset : rowCounts
          { s with
            jobs := s.jobs.set j (jobOverwrite ((s.jobs[j]?).getD (jobDefaults r ti d)) r ti) } =
          rowCounts s := by
        simp [rowCounts]
      rw [← hset]
      exact processLocation_counts _ j r (PresLoc_congr rfl rfl r j hrest)
    | none =>
      simp only [hjf] at hrest
      dsimp only
      split
      next hid => rfl
      next k hid =>
        rw [hrest] at hid
        simp at hid

theorem runRecords_all_pres (d : Option String) :
    ∀ (rs : List Record) (s : DB) (r : Record), r ∈ rs →
      Pres r (runRecords d s rs) := by
  intro rs
  induction rs with
  | nil => intro s r h; cases h
  | cons r0 rest ih =>
    intro s r h
    simp only [runRecords, List.foldl_cons]
    cases h with
    | head =>
      have h1 := processRecord_pres_self d s r0
      have h2 := runRecords_evolves d rest (processRecord d s r0)
      simp only [runRecords] at h2
      exact Pres.mono h2 h1
    | tail _ h =>
      have := ih (processRecord d s r0) r h
      simpa only [runRecords] using this

theorem runRecords_counts_of_pres (d : Option String) :
    ∀ (rs : List Record) (s : DB), (∀ r ∈ rs, Pres r s) →
      rowCounts (runRecords d s rs) = rowCounts s := by
  intro rs
  induction rs with
  | nil => intro s h; rfl
  | cons r0 rest ih =>
    intro s h
    simp only [runRecords, List.foldl_cons]
    have h0 := processRecord_counts d s r0 (h r0 (by simp))
    have hrest : ∀ r ∈ rest, Pres r (processRecord d s r0) := by
      intro r hr
      exact Pres.mono (processRecord_evolves d s r0) (h r (by simp [hr]))
    have hind := ih (processRecord d s r0) hrest
    simp only [runRecords] at hind
    rw [hind, h0]

/-- C1: importing the same snapshot twice is idempotent on row counts — the
second run of import_jobs_from_json creates no new Job, Tech, Location or
JobLocation rows, whatever the starting state, the snapshot content and
the path. -/
theorem import_idempotent (json_path : String) (rs : List Record) (s0 : DB) :
    rowCounts (import_jobs_from_json json_path rs
      (import_jobs_from_json json_path rs s0).db).db =
      rowCounts (import_jobs_from_json json_path rs s0).db := by
  unfold import_jobs_from_json
  cases hsd : searchDate json_path.data with
  | some ds =>
    dsimp only
    by_cases hv : validDate ds = true
    · rw [if_pos hv]
      dsimp only
      rw [if_pos hv]
      exact runRecords_counts_of_pres _ rs _
        (fun r hr => runRecords_all_pres _ rs s0 r hr)
    · rw [if_neg hv]
  | none =>
    dsimp only
    exact runRecords_counts_of_pres _ rs _
      (fun r hr => runRecords_all_pres _ rs s0 r hr)

/-! ## The classifier claims -/

theorem scanWords_first_match :
    ∀ ws : List String, scanWords ws =
      (((ws.filter (fun w => !(IGNORE_WORDS.contains w))).findSome?
        findTechFor).getD "Other") := by
  intro ws
  induction ws with
  | nil => rfl
  | cons w ws ih =>
    by_cases hig : IGNORE_WORDS.contains w
    · have hmem : w ∈ IGNORE_WORDS := by simpa using hig
      simp [scanWords, hmem, ih]
    · have hmem : w ∉ IGNORE_WORDS := by simpa using hig
      cases hf : findTechFor w with
      | some t => simp [scanWords, hmem, hf]
      | none => simp [scanWords, hmem, hf, ih]

/-- C4: extract_tech returns the first vocabulary member whose lower-cased
form equals a (cleaned, lower-cased) title token, scanning tokens left to
right and skipping stop words, with "Other" when no token matches; and the
four concrete classifications of the spec hold. -/
theorem extract_tech_spec :
    (∀ title : String, extract_tech title =
      ((((pySplit (pyLower (clean_title title))).filter
        (fun w => !(IGNORE_WORDS.contains w))).findSome? findTechFor).getD
          "Other")) ∧
    extract_tech "Senior Python Entwickler" = "Python" ∧
    extract_tech "JavaScript Developer" = "JavaScript" ∧
    extract_tech "Unknown Role" = "Other" ∧
    extract_tech "Fullstack Java / Python Developer" = "Java" := by
  refine ⟨fun title => scanWords_first_match _, ?_, ?_, ?_, ?_⟩
  · decide
  · decide
  · decide
  · decide

/-- C9 counterexample: the lazy `.*?` at the end of the alternative `/.*?`
matches the empty string, so only the slash itself is replaced — in the
slash-containing title of the spec's own example, the text after the slash
survives cleaning and still tokenizes, contradicting the claim that
everything from the first slash to the next match is removed. -/
theorem clean_title_slash_counterexample :
    clean_title "Fullstack Java / Python Developer" =
      "Fullstack Java   Python Developer" ∧
    pySplit (pyLower (clean_title "Fullstack Java / Python Developer")) =
      ["fullstack", "java", "python", "developer"] := by
  constructor
  · decide
  · decide

/-- C9 amended: in any title without an opening parenthesis, the cleaning
step rewrites characters independently — each slash, hyphen and comma
becomes a single space and every other character is kept — so a slash
deletes nothing beyond itself. -/
theorem cleanCharsFuel_no_paren :
    ∀ (fuel : Nat) (cs : List Char), cs.length ≤ fuel → '(' ∉ cs →
      cleanCharsFuel fuel cs =
        cs.map (fun c => if c = '/' ∨ c = '-' ∨ c = ',' then ' ' else c) := by
  intro fuel
  induction fuel with
  | zero =>
    intro cs hlen hnp
    cases cs with
    | nil => rfl
    | cons c cs => simp at hlen
  | succ fuel ih =>
    intro cs hlen hnp
    cases cs with
    | nil => rfl
    | cons c cs =>
      have hc : ¬c = '(' := by
        intro h
        exact hnp (h ▸ List.mem_cons_self c cs)
      have hcs : '(' ∉ cs := fun h => hnp (List.mem_cons_of_mem c h)
      have hlen2 : cs.length ≤ fuel := by
        simp only [List.length_cons] at hlen
        omega
      simp only [cleanCharsFuel, hc, if_neg, not_false_iff, List.map_cons]
      by_cases hsl : c = '/' ∨ c = '-' ∨ c = ','
      · simp only [hsl, if_pos, ih cs hlen2 hcs]
      · simp only [hsl, if_neg, not_false_iff, ih cs hlen2 hcs]

/-- C9 amended, at the level of the source function: cleaning a
parenthesis-free title replaces each slash, hyphen and comma by one space
and keeps everything else, character for character. -/
theorem clean_title_slash_amended (title : String)
    (hnp : '(' ∉ title.data) :
    clean_title title = String.mk (title.data.map
      (fun c => if c = '/' ∨ c = '-' ∨ c = ',' then ' ' else c)) := by
  unfold clean_title cleanChars
  rw [cleanCharsFuel_no_paren title.data.length title.data (le_refl _) hnp]

theorem clean_title_slash_amended_witness :
    clean_title "Fullstack Java / Python Developer" =
      "Fullstack Java   Python Developer" := by
  have h := clean_title_slash_amended "Fullstack Java / Python Developer"
    (by decide)
  rw [h]
  decide

/-! ## The location-parsing claim -/

/-- C6 counterexample: a display name with three comma-separated parts is
not taken whole as the city — the source takes `parts[0]`, the first
part, so "A, B, C" yields city "A", not "A, B, C". -/
theorem parse_location_counterexample :
    parseLocation "A, B, C" = (none, "A") ∧
    (parseLocation "A, B, C").2 ≠ "A, B, C" := by
  constructor
  · decide
  · decide

/-- C6 amended: exactly two stripped comma-parts give (district, city); in
every other case the district is absent and the city is the FIRST stripped
comma-part (which equals the whole stripped string only when there is no
comma at all). -/
theorem parse_location_amended (dn : String) (parts : List String)
    (hp : parts = (splitComma dn).map pyStrip) :
    (∀ d c, parts = [d, c] → parseLocation dn = (some d, c)) ∧
    (parts.length ≠ 2 → parseLocation dn = (none, parts.headD "")) := by
  subst hp
  unfold parseLocation
  constructor
  · intro d c h
    rw [h]
  · intro h
    cases hl : (splitComma dn).map pyStrip with
    | nil => rfl
    | cons a t =>
      cases t with
      | nil => rfl
      | cons b t2 =>
        cases t2 with
        | nil =>
          rw [hl] at h
          simp at h
        | cons e t3 => rfl

theorem parse_location_amended_witness :
    parseLocation "A, B, C" = (none, "A") := by
  have h := parse_location_amended "A, B, C" ["A", "B", "C"] (by decide)
  have h2 := h.2 (by decide)
  rw [h2]
  decide

/-! ## The import-report claim -/

/-- C3 counterexample: at a concrete snapshot path, content and state, the
function import_jobs_from_json hands its caller no report of counts — the Python
function has no return statement, so the call evaluates to None. -/
theorem import_return_counterexample :
    import_return "all_jobs_2025-09-08.json" [] emptyDB = none := by
  rfl

/-- C3 amended: import_jobs_from_json never returns a report: on every
path, content and state the returned value is None; the completion
summary exists only as a log line, and no counts of created, updated or
skipped records are computed for the caller. -/
theorem import_return_amended (json_path : String) (jobs_data : List Record)
    (s : DB) : import_return json_path jobs_data s = none := by
  rfl

/-! ## The pagination claim -/

/-- C5: the fetch loop stops exactly when a page request fails (the
accumulated records are still the ones flushed to the snapshot) or when a
page's result list is empty, and otherwise continues with the next page;
with the spec's fake API — two records on page 1, none on page 2 — it
collects exactly the two records, requests pages 1 and 2, and never
requests page 3. -/
theorem fetch_termination_spec :
    (∀ (api : Nat → Option (List Nat)) (fuel page : Nat) (acc : List Nat),
        api page = none → fetch_pages api (fuel + 1) page acc = (acc, [page])) ∧
    (∀ (api : Nat → Option (List Nat)) (fuel page : Nat) (acc : List Nat),
        api page = some [] → fetch_pages api (fuel + 1) page acc = (acc, [page])) ∧
    (∀ (api : Nat → Option (List Nat)) (fuel page : Nat) (acc : List Nat)
        (jobs : List Nat), api page = some jobs → jobs ≠ [] →
        fetch_pages api (fuel + 1) page acc =
          ((fetch_pages api fuel (page + 1) (acc ++ jobs)).1,
            page :: (fetch_pages api fuel (page + 1) (acc ++ jobs)).2)) ∧
    fetch_jobs fakeApiTwoThenEmpty 10 = ([10, 20], [1, 2]) ∧
    (fetch_jobs fakeApiTwoThenEmpty 10).2.contains 3 = false := by
  refine ⟨?_, ?_, ?_, by decide, by decide⟩
  · intro api fuel page acc h
    simp [fetch_pages, h]
  · intro api fuel page acc h
    simp [fetch_pages, h]
  · intro api fuel page acc jobs h hne
    simp [fetch_pages, h, hne]

/-! ## The salary-flag claim -/

/-- C10: the stored salary-predicted flag is true exactly when the raw
salary_is_predicted field is the string "1"; an absent field, the string
"0", a boolean or a number all store false — and both the insert defaults
and the update branch store precisely this flag. -/
theorem salary_predicted_spec :
    (∀ v : Option RawVal, salary_flag v = true ↔ v = some (RawVal.str "1")) ∧
    (∀ (r : Record) (tech : Nat) (d : Option String),
      (jobDefaults r tech d).salary_is_predicted =
        salary_flag r.salary_is_predicted_raw) ∧
    (∀ (old : JobRow) (r : Record) (tech : Nat),
      (jobOverwrite old r tech).salary_is_predicted =
        salary_flag r.salary_is_predicted_raw) ∧
    salary_flag none = false ∧
    salary_flag (some (RawVal.str "0")) = false ∧
    salary_flag (some (RawVal.boolean true)) = false ∧
    salary_flag (some (RawVal.num 1)) = false := by
  refine ⟨?_, fun r tech d => rfl, fun old r tech => rfl, rfl, by decide,
    rfl, rfl⟩
  intro v
  cases v with
  | none => simp [salary_flag]
  | some w =>
    cases w with
    | str s2 => simp [salary_flag]
    | boolean b => simp [salary_flag]
    | num q => simp [salary_flag]
    | null => simp [salary_flag]

/-! ## The posting-date claims -/

theorem mem_of_getElem_some {α : Type} :
    ∀ (l : List α) (i : Nat) (a : α), l[i]? = some a → a ∈ l := by
  intro l
  induction l with
  | nil => intro i a h; simp at h
  | cons b l ih =>
    intro i a h
    cases i with
    | zero =>
      simp only [List.getElem?_cons_zero, Option.some.injEq] at h
      exact h ▸ List.mem_cons_self b l
    | succ n =>
      simp only [List.getElem?_cons_succ] at h
      exact List.mem_cons_of_mem b (ih n a h)

theorem processRecord_dates (d : Option String) (s : DB) (r : Record)
    (j : JobRow) (hj : j ∈ (processRecord d s r).jobs) :
    j.date = d ∨ ∃ j0 ∈ s.jobs, j0.date = j.date := by
  have hjobs : (techGetOrCreate s (techName r)).2.jobs = s.jobs :=
    (techGetOrCreate_other s (techName r)).2.1
  unfold processRecord at hj
  dsimp only at hj
  split at hj
  next i hjf =>
    rw [(processLocation_other _ _ _).2] at hj
    dsimp only at hj
    rcases List.mem_or_eq_of_mem_set hj with hmem | heq
    · rw [hjobs] at hmem
      exact Or.inr ⟨j, hmem, rfl⟩
    · rcases firstIdx_getElem _ _ _ hjf with ⟨old, hold, hpold⟩
      rw [hold] at heq
      dsimp only [Option.getD_some] at heq
      refine Or.inr ⟨old, ?_, ?_⟩
      · rw [← hjobs]
        exact mem_of_getElem_some _ _ _ hold
      · rw [heq]
        rfl
  next hjf =>
    split at hj
    next hid =>
      rw [hjobs] at hj
      exact Or.inr ⟨j, hj, rfl⟩
    next k hid =>
      rw [(processLocation_other _ _ _).2] at hj
      dsimp only at hj
      rcases List.mem_append.mp hj with hmem | hone
      · rw [hjobs] at hmem
        exact Or.inr ⟨j, hmem, rfl⟩
      · simp only [List.mem_singleton] at hone
        rw [hone]
        exact Or.inl rfl

theorem runRecords_dates (d : Option String) :
    ∀ (rs : List Record) (s : DB) (j : JobRow),
      j ∈ (runRecords d s rs).jobs →
        j.date = d ∨ ∃ j0 ∈ s.jobs, j0.date = j.date := by
  intro rs
  induction rs with
  | nil => intro s j hj; exact Or.inr ⟨j, hj, rfl⟩
  | cons r0 rest ih =>
    intro s j hj
    simp only [runRecords, List.foldl_cons] at hj
    have hj2 : j ∈ (runRecords d (processRecord d s r0) rest).jobs := by
      simpa only [runRecords] using hj
    rcases ih (processRecord d s r0) j hj2 with h | ⟨j0, hj0, hdate⟩
    · exact Or.inl h
    · rcases processRecord_dates d s r0 j0 hj0 with h | ⟨j1, hj1, hdate1⟩
      · exact Or.inl (hdate ▸ h)
      · exact Or.inr ⟨j1, hj1, hdate1.trans hdate⟩

/-- A concrete snapshot record, shaped like the one in the repository's
test suite. -/
def sampleRecord : Record :=
  { id := some "job_1", title := "Python Developer", description := "Test job",
    salary_is_predicted_raw := some (RawVal.str "0"),
    redirect_url := "http://example.com", company := "ExampleCo",
    location_display_name := some "Berlin",
    latitude := some 52, longitude := some 13 }

/-- C7 counterexample: the path "all_jobs_2024-13-40.json" holds a
substring the date regex matches but strptime cannot parse (month 13);
the resulting ValueError reaches the outer generic handler, so the
whole import aborts with nothing processed — the batch is not continued with a
null date as claimed. -/
theorem import_bad_date_counterexample :
    (import_jobs_from_json "all_jobs_2024-13-40.json" [sampleRecord]
      emptyDB).aborted = true ∧
    (import_jobs_from_json "all_jobs_2024-13-40.json" [sampleRecord]
      emptyDB).db = emptyDB := by
  constructor
  · decide
  · decide

/-- C7 amended: when no date substring matches in the path, the batch runs
with a null date (only a warning) and every Job row of the outcome either
carries a null date or a date inherited from a pre-existing row; but when
a substring matches and is not a valid calendar date, strptime's
ValueError aborts the import — the state is returned untouched and no
record is processed. -/
theorem import_date_amended :
    (∀ (path : String) (rs : List Record) (s : DB),
        searchDate path.data = none →
        import_jobs_from_json path rs s = ⟨runRecords none s rs, false⟩) ∧
    (∀ (path : String) (rs : List Record) (s : DB) (j : JobRow),
        searchDate path.data = none →
        j ∈ (import_jobs_from_json path rs s).db.jobs →
        j.date = none ∨ ∃ j0 ∈ s.jobs, j0.date = j.date) ∧
    (∀ (path : String) (rs : List Record) (s : DB) (ds : String),
        searchDate path.data = some ds → validDate ds = false →
        import_jobs_from_json path rs s = ⟨s, true⟩) := by
  refine ⟨?_, ?_, ?_⟩
  · intro path rs s h
    simp [import_jobs_from_json, h]
  · intro path rs s j h hj
    simp only [import_jobs_from_json, h] at hj
    exact runRecords_dates none rs s j hj
  · intro path rs s ds h hv
    simp [import_jobs_from_json, h, hv]

/-! ## The job-update frame claim -/

theorem getElem_set_self {α : Type} :
    ∀ (l : List α) (i : Nat) (x : α), i < l.length →
      (l.set i x)[i]? = some x := by
  intro l
  induction l with
  | nil => intro i x h; simp at h
  | cons b l ih =>
    intro i x h
    cases i with
    | zero => simp
    | succ n =>
      simp only [List.set_cons_succ, List.getElem?_cons_succ]
      exact ih n x (by simp at h; omega)

/-- C8: when a record's external id already keys a Job row, processing the
record overwrites that row's title, description, salary-predicted flag,
redirect URL, company and tech reference in place, while leaving both the
posting date and the job_id exactly as they were — the date is set only at
creation. -/
theorem job_update_overwrites_not_date (d : Option String) (s : DB)
    (r : Record) (j : Nat) (hj : jobFind s r.id = some j) :
    ∃ old new, s.jobs[j]? = some old ∧
      (processRecord d s r).jobs[j]? = some new ∧
      new.title = r.title ∧
      new.description = r.description ∧
      new.salary_is_predicted = salary_flag r.salary_is_predicted_raw ∧
      new.redirect_url = r.redirect_url ∧
      new.company = r.company ∧
      new.tech = (techGetOrCreate s (techName r)).1 ∧
      new.date = old.date ∧
      new.job_id = old.job_id := by
  have hjobs : (techGetOrCreate s (techName r)).2.jobs = s.jobs :=
    (techGetOrCreate_other s (techName r)).2.1
  have hj1 : jobFind (techGetOrCreate s (techName r)).2 r.id = some j := by
    unfold jobFind
    rw [hjobs]
    exact hj
  rcases firstIdx_getElem _ _ _ hj1 with ⟨old, hold, hpold⟩
  have holds : s.jobs[j]? = some old := by
    rw [← hjobs]
    exact hold
  have hlt : j < (techGetOrCreate s (techName r)).2.jobs.length :=
    firstIdx_lt_length _ _ _ hj1
  unfold processRecord
  dsimp only
  simp only [hj1]
  rw [(processLocation_other _ _ _).2]
  dsimp only
  refine ⟨old, _, holds, getElem_set_self _ _ _ (by simpa using hlt), ?_, ?_,
    ?_, ?_, ?_, ?_, ?_, ?_⟩
  all_goals simp [hold, jobOverwrite]

def jobRowSample : JobRow :=
  { job_id := some "job_1", title := "Old Title", description := "old",
    salary_is_predicted := true, redirect_url := "old_url",
    company := "OldCo", tech := 0, date := some "2020-01-01" }

def dbWithJob : DB :=
  { techs := [⟨"Other"⟩], locations := [], jobs := [jobRowSample],
    jobLocations := [] }

theorem job_update_witness :
    ∃ old new, dbWithJob.jobs[0]? = some old ∧
      (processRecord none dbWithJob sampleRecord).jobs[0]? = some new ∧
      new.title = sampleRecord.title ∧
      new.description = sampleRecord.description ∧
      new.salary_is_predicted =
        salary_flag sampleRecord.salary_is_predicted_raw ∧
      new.redirect_url = sampleRecord.redirect_url ∧
      new.company = sampleRecord.company ∧
      new.tech = (techGetOrCreate dbWithJob (techName sampleRecord)).1 ∧
      new.date = old.date ∧
      new.job_id = old.job_id :=
  job_update_overwrites_not_date none dbWithJob sampleRecord 0 (by decide)

/-! ## The JobLocation identity claim -/

theorem districtMatches_iff (a b : Option String) :
    districtMatches a b = true ↔ a = b := by
  cases a <;> cases b <;> simp [districtMatches]

theorem jlKeys_congr {s t : DB} (h : t.jobLocations = s.jobLocations) :
    jlKeys t = jlKeys s := by
  unfold jlKeys
  rw [h]

theorem jobLocStep_nodup (s : DB) (a b : Nat) (dn : Option String)
    (lat lng : Option Rat) (h : (jlKeys s).Nodup) :
    (jlKeys (jobLocStep s a b dn lat lng)).Nodup := by
  unfold jobLocStep
  split
  next i hjl =>
    split
    next row hrow =>
      dsimp only
      split
      next hcu =>
        have hkeep : jlKeys
            { s with
              jobLocations := s.jobLocations.set i (coordUpdate row lat lng).1 } = jlKeys s := by
          simp only [jlKeys]
          rw [map_set_list, coordUpdate_key]
          have hmk : (s.jobLocations.map jlKey)[i]? = some (jlKey row) := by
            simp [hrow]
          rw [set_getElem_self _ _ _ hmk]
        rw [hkeep]
        exact h
      next hcu => exact h
    next hrow => exact h
  next hjl =>
    have hk : jlKeys
        { s with
          jobLocations := s.jobLocations ++ [⟨a, b, dn, lat, lng⟩] } = jlKeys s ++ [(a, b, dn)] := by
      simp [jlKeys, jlKey]
    rw [hk]
    have hfresh : (a, b, dn) ∉ jlKeys s := by
      intro hmem
      rw [jobLocFind_eq_keys] at hjl
      have := (firstIdx_none_iff _ _).mp hjl (a, b, dn) hmem
      simp [districtMatches_self] at this
    simp [List.nodup_append, h, hfresh]

theorem processLocation_nodup (s : DB) (j : Nat) (r : Record)
    (h : (jlKeys s).Nodup) : (jlKeys (processLocation s j r)).Nodup := by
  unfold processLocation
  cases hdn : r.location_display_name with
  | none => exact h
  | some dn =>
    by_cases hx : dn = "" ∨ dn = "Deutschland"
    · simp only [if_pos hx]
      exact h
    · simp only [if_neg hx]
      refine jobLocStep_nodup _ _ _ _ _ _ ?_
      rw [jlKeys_congr (locGetOrCreate_other s (parseLocation dn).2).2.2]
      exact h

theorem processRecord_nodup (d : Option String) (s : DB) (r : Record)
    (h : (jlKeys s).Nodup) : (jlKeys (processRecord d s r)).Nodup := by
  have htech : (techGetOrCreate s (techName r)).2.jobLocations =
      s.jobLocations := (techGetOrCreate_other s (techName r)).2.2
  unfold processRecord
  dsimp only
  split
  next i hjf =>
    refine processLocation_nodup _ _ _ ?_
    simpa [jlKeys, htech] using h
  next hjf =>
    split
    next hid =>
      simpa [jlKeys, htech] using h
    next k hid =>
      refine processLocation_nodup _ _ _ ?_
      simpa [jlKeys, htech] using h

theorem runRecords_nodup (d : Option String) :
    ∀ (rs : List Record) (s : DB), (jlKeys s).Nodup →
      (jlKeys (runRecords d s rs)).Nodup := by
  intro rs
  induction rs with
  | nil => intro s h; exact h
  | cons r0 rest ih =>
    intro s h
    simp only [runRecords, List.foldl_cons]
    have := ih (processRecord d s r0) (processRecord_nodup d s r0 h)
    simpa only [runRecords] using this

/-- A record like sampleRecord whose display name carries a district. -/
def sampleRecordDistrict : Record :=
  { sampleRecord with location_display_name := some "Mitte, Berlin" }

/-- C2: the importer keeps at most one JobLocation per (job, location,
district) triple — the lookup condition is satisfied exactly by an equal
district, a null district matching only null (its own identity value, not
a wildcard) — and the uniqueness of triples is an invariant of every
record processed and of every whole import; found rows are updated, never
duplicated, and their coordinates change only where the incoming value is
non-null and differs (a fully matching incoming pair writes nothing; a
changed latitude with an unchanged longitude rewrites only the latitude).
Importing the same job with a district and with no district yields two
distinct rows. -/
theorem joblocation_identity_spec :
    (∀ a b : Option String, districtMatches a b = true ↔ a = b) ∧
    (∀ (d : Option String) (s : DB) (r : Record), (jlKeys s).Nodup →
        (jlKeys (processRecord d s r)).Nodup) ∧
    (∀ (path : String) (rs : List Record) (s : DB), (jlKeys s).Nodup →
        (jlKeys (import_jobs_from_json path rs s).db).Nodup) ∧
    (∀ (row : JobLocationRow) (lat lng : Option Rat),
        jlKey (coordUpdate row lat lng).1 = jlKey row) ∧
    (∀ (row : JobLocationRow) (lat lng : Option Rat),
        (lat = none ∨ lat = row.latitude) →
        (lng = none ∨ lng = row.longitude) →
        coordUpdate row lat lng = (row, false)) ∧
    (∀ (row : JobLocationRow) (lat : Rat) (lng : Option Rat),
        some lat ≠ row.latitude →
        (lng = none ∨ lng = row.longitude) →
        coordUpdate row (some lat) lng =
          ({ row with latitude := some lat }, true)) ∧
    jlKeys (import_jobs_from_json "snapshot.json"
        [sampleRecordDistrict, sampleRecord] emptyDB).db =
      [(0, 0, some "Mitte"), (0, 0, none)] := by
  refine ⟨districtMatches_iff, processRecord_nodup, ?_, coordUpdate_key,
    ?_, ?_, by decide⟩
  · intro path rs s h
    unfold import_jobs_from_json
    cases hsd : searchDate path.data with
    | some ds =>
      dsimp only
      by_cases hv : validDate ds = true
      · rw [if_pos hv]
        exact runRecords_nodup _ rs s h
      · rw [if_neg hv]
        exact h
    | none =>
      dsimp only
      exact runRecords_nodup _ rs s h
  · intro row lat lng hlat hlng
    unfold coordUpdate
    have h1 : (lat.isSome && row.latitude != lat) = false := by
      rcases hlat with h | h
      · simp [h]
      · simp [h]
    have h2 : (lng.isSome && row.longitude != lng) = false := by
      rcases hlng with h | h
      · simp [h]
      · simp [h]
    simp [h1, h2]
  · intro row lat lng hlat hlng
    have hne : ¬row.latitude = some lat := fun hh => hlat hh.symm
    have h1 : ((some lat).isSome && row.latitude != some lat) = true := by
      simp [hne]
    have h2 : (lng.isSome && ({ row with latitude := some lat } :
        JobLocationRow).longitude != lng) = false := by
      rcases hlng with h | h
      · simp [h]
      · simp [h]
    unfold coordUpdate
    dsimp only
    rw [if_pos h1]
    dsimp only
    rw [if_neg (by rw [h2]; simp)]
